import Mathlib

/-!
Verification of the cs_tools repository core: the paginated metadata
aggregation fetcher (`cs_tools/api/middlewares/metadata.py`), the live task
board (`cs_tools/cli/layout.py`) and the search data-source resolution
(`cs_tools/middlewares/search.py`), shallowly embedded in Lean 4.

Python dicts are modelled as association lists of `String × PyVal` whose
observable behaviour is key lookup (`Dict.get?`, first match) together with
the Python dict-literal merge `\x7b'k': v, **d\x7d` (`pyMerge`: existing keys
are overridden in place, new keys appended in order).  Python `None` is
`PyVal.none`.  Time is modelled as integer seconds.
-/

namespace CsTools

/-- A Python value as it occurs in the metadata records: `None` or a string. -/
inductive PyVal where
  | none : PyVal
  | str : String → PyVal
deriving DecidableEq, Repr

/-- A Python dict (JSON object): an association list, looked up first-match. -/
abbrev Dict := List (String × PyVal)

/-- `d[k]`-style lookup, returning `Option.none` when the key is absent. -/
def Dict.get? (d : Dict) (k : String) : Option PyVal :=
  (d.find? (fun p => p.1 == k)).map (fun p => p.2)

/-- String content of field `k`; empty string when absent or `None`.
The theorems only apply this where the Python code would find a string. -/
def Dict.getStr (d : Dict) (k : String) : String :=
  match Dict.get? d k with
  | Option.some (PyVal.str s) => s
  | _ => ""

/-- Whether the dict carries key `k`. -/
def Dict.hasKey (d : Dict) (k : String) : Bool :=
  d.any (fun p => p.1 == k)

/-- One Python dict item assignment `a[k] = v`: override in place when the
key exists, append otherwise. -/
def pyUpdate (a : Dict) (p : String × PyVal) : Dict :=
  if Dict.hasKey a p.1 then
    a.map (fun q => if q.1 == p.1 then (q.1, p.2) else q)
  else
    a ++ [p]

/-- The Python dict literal `\x7b**a, **d\x7d`: items of `d` assigned into `a`
left to right, so `d`'s values win on key collision. -/
def pyMerge (a d : Dict) : Dict :=
  d.foldl pyUpdate a

/-- No two items of the dict share a key (true of every JSON object). -/
def Dict.nodupKeys (d : Dict) : Prop :=
  (d.map (fun p => p.1)).Nodup

instance (d : Dict) : Decidable (Dict.nodupKeys d) := by
  unfold Dict.nodupKeys; infer_instance

/-- The `track_guids` dict (guid → name).  Only `get` is ever observed, so
Python's `track[k] = v` is modelled as a shadowing prepend. -/
abbrev Track := List (String × String)

/-- `track_guids.get(k)`: `None` when absent. -/
def Track.get (t : Track) (k : String) : Option String :=
  (t.find? (fun p => p.1 == k)).map (fun p => p.2)

/-- `track_guids[k] = v`. -/
def Track.set (t : Track) (k : String) (v : String) : Track :=
  (k, v) :: t

/-- Lift a `track_guids.get` result into a record value. -/
def optVal : Option String → PyVal
  | Option.none => PyVal.none
  | Option.some s => PyVal.str s

/-! ### The paginated aggregation fetcher, `MetadataMiddleware.all`
(`src/cs_tools/api/middlewares/metadata.py`). -/

/-- `MetadataCategory` from `cs_tools.data.enums`, as used by `all`:
one of `all`, `yours`, `favorites` (`.value` is the wire string). -/
inductive MetadataCategory where
  | all : MetadataCategory
  | yours : MetadataCategory
  | favorites : MetadataCategory
deriving DecidableEq, Repr

/-- The `.value` attribute of the category enum. -/
def MetadataCategory.value : MetadataCategory → String
  | MetadataCategory.all => "all"
  | MetadataCategory.yours => "yours"
  | MetadataCategory.favorites => "favorites"

/-- One response of the `_metadata.list` endpoint: the `headers` list, the
`isLastBatch` flag, and the number of *other* top-level keys of the JSON
object (the object always carries at least `headers` and `isLastBatch`,
`extraKeys` counts the rest; it only matters to Python's `len(r.json())`). -/
structure ListPage where
  headers : List Dict
  isLastBatch : Bool
  extraKeys : Nat := 0
deriving DecidableEq, Repr

/-- Python's `len(r.json())` on a list response: the number of top-level keys
of the JSON object — `headers`, `isLastBatch`, and the extras. -/
def pyLenPage (p : ListPage) : Nat :=
  2 + p.extraKeys

/-- Ghost observation of one record's processing inside the header loop of
`all`: the type being listed, the raw server header, and the context value
computed for it by the `track_guids.get(d['owner'])` lookup. -/
structure TraceEntry where
  type_ : String
  header : Dict
  ctx : PyVal
deriving DecidableEq, Repr

/-- Result of processing one header inside the loop. -/
structure HeaderStep where
  track : Track
  record : Dict
  entry : TraceEntry
deriving DecidableEq, Repr

/-- The body of `for d in data['headers']`: register the header in
`track_guids`, then build the enriched record
`\x7b'type': type_, 'context': ..., **d\x7d`.  Note the registration happens
*before* the context lookup, so a record can resolve its own id. -/
def processHeader (type_ : String) (track : Track) (d : Dict) : HeaderStep :=
  let track' := Track.set track (Dict.getStr d "id") (Dict.getStr d "name")
  let ctx :=
    if type_ == "LOGICAL_COLUMN" then
      optVal (Track.get track' (Dict.getStr d "owner"))
    else
      PyVal.none
  let enriched := pyMerge [("type", PyVal.str type_), ("context", ctx)] d
  ⟨track', enriched, ⟨type_, d, ctx⟩⟩

/-- Result of the whole header loop of one page: the threaded `track_guids`,
`to_extend` (one enriched record per header, in order), and the ghost
trace. -/
structure HeaderRun where
  track : Track
  records : List Dict
  trace : List TraceEntry
deriving DecidableEq, Repr

/-- The `for d in data['headers']` loop over a whole page. -/
def processHeaders (type_ : String) (track : Track) (hs : List Dict) :
    HeaderRun :=
  match hs with
  | [] => ⟨track, [], []⟩
  | d :: rest =>
    let s := processHeader type_ track d
    let r := processHeaders type_ s.track rest
    ⟨r.track, s.record :: r.records, s.entry :: r.trace⟩

/-- The exclusion predicate of `all`:
`answer['authorName'] not in ('system', 'tsadmin')`. -/
def keepRecord (a : Dict) : Bool :=
  !(Dict.getStr a "authorName" == "system" || Dict.getStr a "authorName" == "tsadmin")

/-- Result of the page loop for one metadata type: the threaded
`track_guids`, the records appended to `content`, the ghost trace, and the
ghost list of offsets at which requests were issued. -/
structure TypeRun where
  track : Track
  records : List Dict
  trace : List TraceEntry
  offsets : List Nat
deriving DecidableEq, Repr

/-- The `while True` page loop of `all` for one metadata type.  The server's
successive responses are given as the list `pages`, consumed in request
order; the loop stops at the first `isLastBatch` page (or when the supplied
responses run out).  `offset += len(to_extend)` happens *before* the
exclusion filter, so the offset advances by the raw header count. -/
def runType (excl : Bool) (type_ : String) (track : Track) (offset : Nat)
    (pages : List ListPage) : TypeRun :=
  match pages with
  | [] => ⟨track, [], [], []⟩
  | page :: rest =>
    let ph := processHeaders type_ track page.headers
    let offset' := offset + ph.records.length
    let filtered := if excl then ph.records.filter keepRecord else ph.records
    if page.isLastBatch then
      ⟨ph.track, filtered, ph.trace, [offset]⟩
    else
      let r := runType excl type_ ph.track offset' rest
      ⟨r.track, filtered ++ r.records, ph.trace ++ r.trace, offset :: r.offsets⟩

/-- The `types` list of `all`: the three base types, plus `LOGICAL_COLUMN`
when `include_columns` is set. -/
def typesList (include_columns : Bool) : List String :=
  let types := ["PINBOARD_ANSWER_BOOK", "QUESTION_ANSWER_BOOK", "LOGICAL_TABLE"]
  if include_columns then types ++ ["LOGICAL_COLUMN"] else types

/-- Accumulated state of a full `all` run over every type. -/
structure RunState where
  track : Track
  content : List Dict
  trace : List TraceEntry
  offsets : List (String × Nat)
deriving DecidableEq, Repr

/-- One step of the outer `for type_ in types` loop: run the page loop for
one type (starting again at `offset = 0`) and accumulate. -/
def runStep (excl : Bool) (pagesFor : String → List ListPage)
    (st : RunState) (ty : String) : RunState :=
  let r := runType excl ty st.track 0 (pagesFor ty)
  { track := r.track
    content := st.content ++ r.records
    trace := st.trace ++ r.trace
    offsets := st.offsets ++ r.offsets.map (fun o => (ty, o)) }

/-- The outer `for type_ in types` loop of `all`: each type starts at
`offset = 0` while `track_guids` and `content` persist across types.
The server is modelled by `pagesFor`, the successive `_metadata.list`
responses for each type. -/
def runAll (excl : Bool) (include_columns : Bool)
    (pagesFor : String → List ListPage) : RunState :=
  (typesList include_columns).foldl (runStep excl pagesFor)
    { track := [], content := [], trace := [], offsets := [] }

/-- The tag suffix of the reason string: empty for `tags=None`, else the
joined tag list. -/
def tagSuffix : Option (List String) → String
  | Option.none => ""
  | Option.some ts => " and tags: " ++ String.intercalate ", " ts

/-- The reason string built by `all` when the aggregated content is empty. -/
def buildReason (category : MetadataCategory) (excl : Bool)
    (tags : Option (List String)) : String :=
  "\x27" ++ category.value ++ "\x27 category (" ++
    (if excl then "excluding " else "including ") ++
    "admin-generated content)" ++ tagSuffix tags

/-- The error raised by the fetcher. -/
inductive FetchErr where
  | contentDoesNotExist (reason : String) : FetchErr
deriving DecidableEq, Repr

/-- `MetadataMiddleware.all`: run the aggregation, then raise
`ContentDoesNotExist` when the final collection is empty, else return it.
`tags` is already normalised to a list (the source wraps a bare string). -/
def fetchAll (include_columns : Bool) (tags : Option (List String))
    (category : MetadataCategory) (excl : Bool)
    (pagesFor : String → List ListPage) : Except FetchErr (List Dict) :=
  let st := runAll excl include_columns pagesFor
  if st.content.isEmpty then
    Except.error (FetchErr.contentDoesNotExist (buildReason category excl tags))
  else
    Except.ok st.content

/-! ### The chunked fetch operations (`columns`, `permissions`, `dependents`)
of `MetadataMiddleware`. -/

/-- Structural worker for `chunks`: `fuel` bounds the recursion depth and is
always supplied as the length of the list, which suffices for a positive
chunk size. -/
def chunksGo (n : Nat) : Nat → List α → List (List α)
  | _, [] => []
  | 0, _ :: _ => []
  | Nat.succ fuel, x :: xs =>
    if n = 0 then []
    else (x :: xs).take n :: chunksGo n fuel ((x :: xs).drop n)

/-- Modelled from the spec: the `chunks` helper of `cs_tools.util` (whose
module is not under `src/`) — "the ids are partitioned into fixed-size
chunks ... and one request is issued per chunk".  Consecutive groups of `n`
ids, the last possibly shorter; every call site passes a positive `n`. -/
def chunks (xs : List α) (n : Nat) : List (List α) :=
  chunksGo n xs.length xs

/-- Result of a chunked fetch, together with the ghost list of the id
payloads of the requests it issued, in issue order. -/
structure ChunkedFetch where
  results : List Dict
  requests : List (List String)
deriving DecidableEq, Repr

/-- `MetadataMiddleware.columns`: `for chunk in chunks(guids, n=chunksize)`,
but the request inside the loop is issued with `id=guids` — the whole id
list — not `id=chunk` (the loop variable is unused in the body).  `details`
models the server: the `['storables']['columns']` list of the response to a
given id payload. -/
def columnsFetch (details : List String → List Dict) (guids : List String)
    (chunksize : Nat) : ChunkedFetch :=
  (chunks guids chunksize).foldl
    (fun st _chunk =>
      { results := st.results ++ details guids
        requests := st.requests ++ [guids] })
    { results := [], requests := [] }

/-- One permission entry of the security response:
`\x7b'shareMode': ..., 'topLevelObjectId': ...\x7d`. -/
structure Permission where
  topLevelObjectId : String
  shareMode : String
deriving DecidableEq, Repr

/-- One value of the `metadata_permissions` response object: its
`['permissions']` mapping, principal guid → permission. -/
structure PermData where
  permissions : List (String × Permission)
deriving DecidableEq, Repr

/-- The record built for one `(shared_to_principal_guid, permission)` pair
in `MetadataMiddleware.permissions`. -/
def permissionRecord (permission_type : String) (userGuids : List String)
    (p : String × Permission) : Dict :=
  [("object_guid", PyVal.str p.2.topLevelObjectId),
   ("permission_type", PyVal.str permission_type),
   ("share_mode", PyVal.str p.2.shareMode)] ++
  (if p.1 ∈ userGuids then
     [("shared_to_user_guid", PyVal.str p.1)]
   else
     [("shared_to_group_guid", PyVal.str p.1)])

/-- `MetadataMiddleware.permissions`: the chunk loop, issuing one
`metadata_permissions` request per chunk with `id=chunk` and flattening the
response values.  `permServer` models the server (the values of the response
object for a given id payload); `userGuids` is the id list from
`self.ts.user.all()`, fetched once before the loop. -/
def permissionsFetch (permServer : List String → List PermData)
    (userGuids : List String) (guids : List String) (permission_type : String)
    (chunksize : Nat) : ChunkedFetch :=
  (chunks guids chunksize).foldl
    (fun st chunk =>
      let recs :=
        (permServer chunk).foldl
          (fun acc data =>
            acc ++ data.permissions.map (permissionRecord permission_type userGuids))
          []
      { results := st.results ++ recs
        requests := st.requests ++ [chunk] })
    { results := [], requests := [] }

/-- `MetadataMiddleware.dependents`, chunk loop: one `list_dependents`
request per chunk with `id=chunk`; the response maps each parent guid to a
mapping of dependency type to header lists, flattened into
`\x7b'parent_guid': ..., 'type': ..., **header\x7d` records. -/
def dependentsFetch
    (depServer : List String → List (String × List (String × List Dict)))
    (guids : List String) (chunksize : Nat) : ChunkedFetch :=
  (chunks guids chunksize).foldl
    (fun st chunk =>
      let recs :=
        (depServer chunk).foldl
          (fun acc pd =>
            acc ++ pd.2.foldl
              (fun acc2 th =>
                acc2 ++ th.2.map (fun header =>
                  pyMerge [("parent_guid", PyVal.str pd.1),
                           ("type", PyVal.str th.1)] header))
              [])
          []
      { results := st.results ++ recs
        requests := st.requests ++ [chunk] })
    { results := [], requests := [] }

/-! ### `MetadataMiddleware.get_edoc_object_list` -/

/-- Modelled from the spec: the values of the `MetadataObjectSubtype` enum
(`cs_tools.data.enums`, not under `src/`) — the logical-table subtypes, as
enumerated by the type mapping inside `MetadataMiddleware.permissions`. -/
def metadataObjectSubtypeValues : List String :=
  ["ONE_TO_ONE_LOGICAL", "USER_DEFINED", "WORKSHEET", "AGGR_WORKSHEET",
   "MATERIALIZED_VIEW", "SQL_VIEW"]

/-- `MetadataMiddleware.map_subtype_to_type`: a logical-table subtype maps to
`LOGICAL_TABLE` (`DownloadableContent.logical_table.value`); anything else —
including Python `None` from `metadata.get('type')` — is returned as is. -/
def mapSubtypeToType (subtype : Option String) : Option String :=
  if (subtype.map (fun s => decide (s ∈ metadataObjectSubtypeValues))).getD false then
    Option.some "LOGICAL_TABLE"
  else
    subtype

/-- Modelled from the spec: the values of the `DownloadableContent` enum
(`cs_tools.data.enums`, not under `src/`) — the downloadable content types;
the source docstring of `get_edoc_object_list` exhibits
`QUESTION_ANSWER_BOOK` and `PINBOARD_ANSWER_BOOK`, and the code compares
against `DownloadableContent.logical_table` (`LOGICAL_TABLE`). -/
def downloadableContentValues : List String :=
  ["QUESTION_ANSWER_BOOK", "PINBOARD_ANSWER_BOOK", "LOGICAL_TABLE"]

/-- `metadata.get('type')` of a header: the subtype string, or Python `None`
when the key is absent or null. -/
def headerTypeField (h : Dict) : Option String :=
  match Dict.get? h "type" with
  | Option.some (PyVal.str s) => Option.some s
  | _ => Option.none

/-- The `while True` page loop of `get_edoc_object_list` for one content
type.  The loop advances its offset by `len(data)` where `data = r.json()`
is the *response object*, i.e. by the number of top-level JSON keys
(`pyLenPage`), not by the number of headers fetched.  Returns the id/type
mappings and the ghost offsets at which requests were issued. -/
def edocTypeLoop (typeValue : String) (offset : Nat) (pages : List ListPage) :
    List Dict × List Nat :=
  match pages with
  | [] => ([], [])
  | page :: rest =>
    let offset' := offset + pyLenPage page
    let mapped := page.headers.map (fun h =>
      if typeValue == "LOGICAL_TABLE" then
        [("id", PyVal.str (Dict.getStr h "id")),
         ("type", optVal (mapSubtypeToType (headerTypeField h)))]
      else
        [("id", PyVal.str (Dict.getStr h "id")),
         ("type", PyVal.str typeValue)])
    if page.isLastBatch then
      (mapped, [offset])
    else
      let (ms, offs) := edocTypeLoop typeValue offset' rest
      (mapped ++ ms, offset :: offs)

/-- `MetadataMiddleware.get_edoc_object_list`: early return on an empty guid
list, then the per-type page loops.  (The stray extra `_metadata.list`
request issued after each type's loop has no effect on the result and is not
modelled.)  Ghost output: the `(type, offset)` pairs of the page-loop
requests. -/
def getEdocObjectList (guids : List String)
    (pagesFor : String → List ListPage) : List Dict × List (String × Nat) :=
  if guids.isEmpty then ([], [])
  else
    downloadableContentValues.foldl
      (fun st ty =>
        let (ms, offs) := edocTypeLoop ty 0 (pagesFor ty)
        (st.1 ++ ms, st.2 ++ offs.map (fun o => (ty, o))))
      ([], [])

/-! ### The live task board, `WorkTask` (`src/cs_tools/cli/layout.py`).
Timestamps are modelled as integer seconds fed to each transition; the
`Live` refresh calls are display-only and carry no state. -/

/-- The mutable state of one `WorkTask`.  `status` is `Option String`
because `skip` assigns Python `None` to it. -/
structure WorkTask where
  name : String
  description : String
  status : Option String
  totalDuration : Int
  startedAt : Option Int
  skipped : Bool
  stopped : Bool
deriving DecidableEq, Repr

/-- A freshly constructed task (`__post_init__`): pending glyph, zero
accumulated duration, never started, not skipped, not stopped. -/
def WorkTask.make (name description : String) : WorkTask :=
  { name := name
    description := description
    status := Option.some ":popcorn:"
    totalDuration := 0
    startedAt := Option.none
    skipped := false
    stopped := false }

/-- `WorkTask.skip`: set `_skipped` and clear the status glyph. -/
def WorkTask.skip (t : WorkTask) : WorkTask :=
  { t with skipped := true, status := Option.none }

/-- `WorkTask.__enter__` at wall-clock time `now`: unconditionally set the
running glyph and record the start timestamp (note: `_stopped` is *not*
reset). -/
def WorkTask.enterAt (t : WorkTask) (now : Int) : WorkTask :=
  { t with status := Option.some ":fire:", startedAt := Option.some now }

/-- `WorkTask.__exit__` at time `now` with the propagating error `exc`
(`Option.none` for a clean exit): update the glyph unless skipped, then
accumulate the elapsed time and freeze.  The returned `Bool` is the
truthiness of the Python `__exit__` return value — always `false`, so an
error is never suppressed and propagates to the caller. -/
def WorkTask.exitAt (t : WorkTask) (now : Int) (exc : Option String) :
    WorkTask × Bool :=
  let t1 :=
    if t.skipped then t
    else
      { t with status :=
          Option.some (if exc.isNone then ":white_heavy_check_mark:" else ":cross_mark:") }
  ({ t1 with
      totalDuration := t1.totalDuration + (now - t1.startedAt.getD 0)
      stopped := true },
   false)

/-- The `duration` property read at time `now`: frozen at the accumulated
total once stopped, else elapsed-since-start plus the accumulated total. -/
def WorkTask.durationAt (t : WorkTask) (now : Int) : Int :=
  if t.stopped then t.totalDuration
  else (now - t.startedAt.getD 0) + t.totalDuration

/-! ### Search data-source resolution
(`src/cs_tools/middlewares/search.py`, `SearchMiddlware.__call__`). -/

/-- The error outcomes of the name-based data-source resolution.
`indexError` is the `IndexError` Python raises for `data[0]` on an empty
list. -/
inductive SearchErr where
  | contentDoesNotExist (type_ : String) (name : String) : SearchErr
  | ambiguousContent (name : String) (type_ : String) : SearchErr
  | indexError : SearchErr
deriving DecidableEq, Repr

/-- `str.casefold()` equality of the source, modelled as per-character
lower-case equality (they agree on the ASCII names at issue). -/
def casefoldEq (a b : String) : Bool :=
  a.data.map Char.toLower == b.data.map Char.toLower

/-- Modelled from the spec: `cs_tools.util.is_valid_guid` (module not under
`src/`) — whether the string is a platform GUID, i.e. the canonical
8-4-4-4-12 hex form. -/
def isValidGuid (s : String) : Bool :=
  let cs := s.data
  cs.length == 36 &&
    (List.range 36).all (fun i =>
      match cs.get? i with
      | Option.some c =>
        if i = 8 || i = 13 || i = 18 || i = 23 then c == '-'
        else c.isDigit || ('a' ≤ c && c ≤ 'f') || ('A' ≤ c && c ≤ 'F')
      | Option.none => false)

/-- The body of `if not util.is_valid_guid(guid)` in `SearchMiddlware`:
check the pattern listing's `headers` for emptiness, filter by casefolded
name equality, reject multiple matches, then take `data[0]['id']` — which on
an empty filtered list is an `IndexError`. -/
def resolveGuid (headers : List Dict) (guid : String) : Except SearchErr String :=
  if headers.isEmpty then
    Except.error (SearchErr.contentDoesNotExist "LOGICAL_TABLE" guid)
  else
    let data := headers.filter (fun h => casefoldEq (Dict.getStr h "name") guid)
    if data.length > 1 then
      Except.error (SearchErr.ambiguousContent guid "LOGICAL_TABLE")
    else
      match data with
      | [] => Except.error SearchErr.indexError
      | h :: _ => Except.ok (Dict.getStr h "id")

/-- The data-source resolution step of `SearchMiddlware.__call__`: a valid
GUID is used as is, otherwise the name is resolved against the `headers` of
the server's pattern listing. -/
def searchResolveDataSource (guid : String) (listHeaders : List Dict) :
    Except SearchErr String :=
  if isValidGuid guid then Except.ok guid
  else resolveGuid listHeaders guid

/-! ### Decidability of `Except` equality, for concrete evaluations. -/

instance instDecEqExcept {e a : Type} [DecidableEq e] [DecidableEq a] :
    DecidableEq (Except e a) := fun x y =>
  match x, y with
  | Except.error u, Except.error v =>
    if h : u = v then Decidable.isTrue (by rw [h])
    else Decidable.isFalse (by intro he; cases he; exact h rfl)
  | Except.error _, Except.ok _ => Decidable.isFalse (by intro h; cases h)
  | Except.ok _, Except.error _ => Decidable.isFalse (by intro h; cases h)
  | Except.ok u, Except.ok v =>
    if h : u = v then Decidable.isTrue (by rw [h])
    else Decidable.isFalse (by intro he; cases he; exact h rfl)

/-! ### Ghost bookkeeping for the context-lookup invariant of `all` -/

/-- The `id` field a header registers into `track_guids`. -/
def entryId (e : TraceEntry) : String :=
  Dict.getStr e.header "id"

/-- The `name` field a header registers into `track_guids`. -/
def entryName (e : TraceEntry) : String :=
  Dict.getStr e.header "name"

/-- The `owner` field by which a header's context is looked up. -/
def entryOwner (e : TraceEntry) : String :=
  Dict.getStr e.header "owner"

/-- The `track_guids` table after registering the given trace entries, in
processing order, on top of `t`. -/
def trackAfter (t : Track) : List TraceEntry → Track
  | [] => t
  | e :: es => trackAfter (Track.set t (entryId e) (entryName e)) es

/-- The per-entry context invariant: each entry's context value was computed
by looking its owner up in the track table holding exactly the previously
processed entries plus the entry itself. -/
def CtxOk : Track → List TraceEntry → Prop
  | _, [] => True
  | t, e :: es =>
    e.ctx = (if e.type_ == "LOGICAL_COLUMN" then
        optVal (Track.get (Track.set t (entryId e) (entryName e)) (entryOwner e))
      else PyVal.none) ∧
    CtxOk (Track.set t (entryId e) (entryName e)) es

/-! ### Lookup lemmas for the dict model -/

theorem Dict.get_cons (x : String × PyVal) (xs : Dict) (k : String) :
    Dict.get? (x :: xs) k =
      if x.1 = k then Option.some x.2 else Dict.get? xs k := by
  by_cases h : x.1 = k
  · simp [Dict.get?, List.find?, h]
  · have hb : (x.1 == k) = false := by simp [h]
    simp [Dict.get?, List.find?, hb, h]

theorem Dict.hasKey_iff_isSome (a : Dict) (k : String) :
    Dict.hasKey a k = true ↔ (Dict.get? a k).isSome = true := by
  induction a with
  | nil => simp [Dict.hasKey, Dict.get?]
  | cons x xs ih =>
    rw [Dict.get_cons]
    by_cases h : x.1 = k
    · simp [Dict.hasKey, h]
    · simp only [Dict.hasKey, List.any_cons] at ih ⊢
      have hb : (x.1 == k) = false := by simp [h]
      simp [hb, h, ih]

theorem Dict.get_map_override (a : Dict) (p : String × PyVal) (k : String) :
    Dict.get? (a.map (fun q => if q.1 == p.1 then (q.1, p.2) else q)) k =
      if k = p.1 then (Dict.get? a k).map (fun _ => p.2) else Dict.get? a k := by
  induction a with
  | nil => by_cases h : k = p.1 <;> simp [Dict.get?, h]
  | cons x xs ih =>
    obtain ⟨xk, xv⟩ := x
    simp only [List.map_cons]
    by_cases hx : xk = p.1
    · subst hx
      simp only [beq_self_eq_true, if_true]
      rw [Dict.get_cons, Dict.get_cons]
      by_cases hk : k = p.1
      · simp [hk]
      · have hpk : ¬ (p.1, p.2).1 = k := fun he => hk he.symm
        have hpk' : ¬ (p.1, xv).1 = k := fun he => hk he.symm
        simp only [if_neg hk, if_neg hpk, if_neg hpk']
        rw [ih, if_neg hk]
    · have hb : (xk == p.1) = false := by simp [hx]
      simp only [hb, Bool.false_eq_true, if_false]
      rw [Dict.get_cons, Dict.get_cons]
      by_cases hk : (xk, xv).1 = k
      · have hkp : ¬ k = p.1 := by
          intro he
          exact hx (by rw [← he]; exact hk)
        simp only [if_pos hk, if_neg hkp]
      · simp only [if_neg hk]
        by_cases hkp : k = p.1
        · simp only [if_pos hkp] at ih ⊢
          exact ih
        · simp only [if_neg hkp] at ih ⊢
          exact ih

theorem Dict.get_append_single (a : Dict) (p : String × PyVal) (k : String) :
    Dict.get? (a ++ [p]) k =
      match Dict.get? a k with
      | Option.some v => Option.some v
      | Option.none => if p.1 = k then Option.some p.2 else Option.none := by
  induction a with
  | nil =>
    simp only [List.nil_append]
    rw [Dict.get_cons]
    by_cases h : p.1 = k <;> simp [Dict.get?, h]
  | cons x xs ih =>
    simp only [List.cons_append]
    rw [Dict.get_cons, Dict.get_cons]
    by_cases h : x.1 = k
    · simp [h]
    · simp only [h, if_false]
      exact ih

theorem Dict.get_pyUpdate_self (a : Dict) (p : String × PyVal) :
    Dict.get? (pyUpdate a p) p.1 = Option.some p.2 := by
  unfold pyUpdate
  by_cases h : Dict.hasKey a p.1
  · rw [if_pos h, Dict.get_map_override, if_pos rfl]
    have := (Dict.hasKey_iff_isSome a p.1).mp h
    cases hv : Dict.get? a p.1 with
    | none => rw [hv] at this; simp at this
    | some v => simp
  · rw [if_neg h, Dict.get_append_single]
    have : Dict.get? a p.1 = Option.none := by
      cases hv : Dict.get? a p.1 with
      | none => rfl
      | some v =>
        exfalso
        exact h ((Dict.hasKey_iff_isSome a p.1).mpr (by rw [hv]; rfl))
    rw [this]
    simp

theorem Dict.get_pyUpdate_other (a : Dict) (p : String × PyVal) (k : String)
    (hk : k ≠ p.1) : Dict.get? (pyUpdate a p) k = Dict.get? a k := by
  unfold pyUpdate
  by_cases h : Dict.hasKey a p.1
  · rw [if_pos h, Dict.get_map_override, if_neg hk]
  · rw [if_neg h, Dict.get_append_single]
    have hpk : ¬ p.1 = k := fun he => hk he.symm
    cases hv : Dict.get? a k with
    | none => simp [hpk]
    | some v => simp

/-- Lookup through a Python dict-literal merge: `d`'s binding wins when `d`
has the key, otherwise the base's binding shows through. -/
theorem Dict.get_pyMerge (d : Dict) (hd : Dict.nodupKeys d) (a : Dict) (k : String) :
    Dict.get? (pyMerge a d) k =
      match Dict.get? d k with
      | Option.some v => Option.some v
      | Option.none => Dict.get? a k := by
  induction d generalizing a with
  | nil => simp [pyMerge, Dict.get?]
  | cons p rest ih =>
    have hd' : Dict.nodupKeys rest := by
      unfold Dict.nodupKeys at hd ⊢
      simpa using hd.of_cons
    have hp : p.1 ∉ rest.map (fun q => q.1) := by
      unfold Dict.nodupKeys at hd
      simpa using (List.nodup_cons.mp hd).1
    show Dict.get? (pyMerge (pyUpdate a p) rest) k = _
    rw [ih hd' (pyUpdate a p)]
    by_cases hk : k = p.1
    · have hrest : Dict.get? rest k = Option.none := by
        unfold Dict.get?
        rw [List.find?_eq_none.mpr]
        · rfl
        · intro q hq
          simp only [beq_iff_eq]
          intro hqe
          exact hp (by
            rw [← hk, ← hqe]
            exact List.mem_map_of_mem (fun q => q.1) hq)
      rw [hrest]
      have hcons : Dict.get? (p :: rest) k = Option.some p.2 := by
        rw [Dict.get_cons, if_pos hk.symm]
      rw [hcons]
      rw [hk]
      exact Dict.get_pyUpdate_self a p
    · have hcons : Dict.get? (p :: rest) k = Dict.get? rest k := by
        rw [Dict.get_cons, if_neg (fun he => hk he.symm)]
      rw [hcons, Dict.get_pyUpdate_other a p k hk]

/-! ### Task-board claims -/

/-- Claim C2, counterexample: skipping a fresh task clears its glyph, but a
subsequent scoped entry sets the glyph to the running glyph — the skipped
display is *not* sticky through `__enter__`, contradicting the claim that no
subsequent start alters the glyph. -/
theorem workTask_skip_overwritten_by_enter :
    ((WorkTask.make "t" "d").skip).status = Option.none ∧
    (((WorkTask.make "t" "d").skip).enterAt 5).status = Option.some ":fire:" ∧
    Option.some ":fire:" ≠ (Option.none : Option String) := by
  decide

/-- Claim C2, amended: `skip` clears the status glyph and sets the sticky
`skipped` flag; a scoped *exit* of a skipped task never alters its glyph
(and keeps the flag), but a scoped *entry* always sets the glyph to the
running glyph `:fire:`. -/
theorem workTask_skip_semantics (t : WorkTask) (now : Int) (exc : Option String)
    (h : t.skipped = true) :
    (WorkTask.skip t).status = Option.none ∧
    (WorkTask.skip t).skipped = true ∧
    ((WorkTask.exitAt t now exc).1).status = t.status ∧
    ((WorkTask.exitAt t now exc).1).skipped = true ∧
    (WorkTask.enterAt t now).skipped = t.skipped ∧
    (WorkTask.enterAt t now).status = Option.some ":fire:" := by
  refine ⟨rfl, rfl, ?_, ?_, rfl, rfl⟩ <;>
    simp [WorkTask.exitAt, h]

/-- Witness for the amended C2 theorem at a concrete skipped task. -/
theorem workTask_skip_semantics_witness :
    ((WorkTask.exitAt ((WorkTask.make "t" "d").skip) 5 (Option.some "boom")).1).status =
      ((WorkTask.make "t" "d").skip).status ∧
    ((WorkTask.exitAt ((WorkTask.make "t" "d").skip) 5 (Option.some "boom")).1).skipped = true :=
  ⟨((workTask_skip_semantics ((WorkTask.make "t" "d").skip) 5 (Option.some "boom")
      (by decide)).2.2.1).trans (by decide),
   (workTask_skip_semantics ((WorkTask.make "t" "d").skip) 5 (Option.some "boom")
      (by decide)).2.2.2.1⟩

/-- Claim C7: a scoped exit with an error never suppresses it (the Python
`__exit__` returns a falsy value, so the error propagates to the caller),
and before propagation the status is recorded as failure and the elapsed
wall-clock time is accumulated into the duration total. -/
theorem workTask_failure_propagates (t : WorkTask) (s now : Int) (e : String)
    (hstart : t.startedAt = Option.some s) (hskip : t.skipped = false) :
    (WorkTask.exitAt t now (Option.some e)).2 = false ∧
    ((WorkTask.exitAt t now (Option.some e)).1).status = Option.some ":cross_mark:" ∧
    ((WorkTask.exitAt t now (Option.some e)).1).totalDuration = t.totalDuration + (now - s) ∧
    ((WorkTask.exitAt t now (Option.some e)).1).stopped = true := by
  simp [WorkTask.exitAt, hstart, hskip]

/-- Witness for C7: a task started at time 2 failing at time 5 records the
failure glyph, accumulates 3 seconds, and does not suppress the error. -/
theorem workTask_failure_propagates_witness :
    (WorkTask.exitAt ((WorkTask.make "t" "d").enterAt 2) 5 (Option.some "boom")).2 = false ∧
    ((WorkTask.exitAt ((WorkTask.make "t" "d").enterAt 2) 5 (Option.some "boom")).1).status =
      Option.some ":cross_mark:" ∧
    ((WorkTask.exitAt ((WorkTask.make "t" "d").enterAt 2) 5 (Option.some "boom")).1).totalDuration = 3 := by
  have h := workTask_failure_propagates ((WorkTask.make "t" "d").enterAt 2) 2 5 "boom"
    (by decide) (by decide)
  exact ⟨h.1, h.2.1, by rw [h.2.2.1]; decide⟩

/-- Claim C8, evaluation at the failing input: one full cycle from time 0 to
time 3 accumulates 3 seconds; after re-entering at time 10, the displayed
duration at time 11 is still the frozen total 3 — not
`(now − start) + accumulated = 4` as the claim requires — because
`__enter__` never resets `_stopped`. -/
theorem workTask_reenter_duration_frozen :
    (((((WorkTask.make "t" "d").enterAt 0).exitAt 3 Option.none).1).totalDuration = 3) ∧
    ((((((WorkTask.make "t" "d").enterAt 0).exitAt 3 Option.none).1).enterAt 10).startedAt =
      Option.some 10) ∧
    ((((((WorkTask.make "t" "d").enterAt 0).exitAt 3 Option.none).1).enterAt 10).stopped = true) ∧
    ((((((WorkTask.make "t" "d").enterAt 0).exitAt 3 Option.none).1).enterAt 10).durationAt 11 = 3) ∧
    ((((((WorkTask.make "t" "d").enterAt 0).exitAt 3 Option.none).1).enterAt 10).durationAt 11 ≠
      (11 - 10) + ((((WorkTask.make "t" "d").enterAt 0).exitAt 3 Option.none).1).totalDuration) := by
  decide

/-! ### Claims on the aggregation fetcher's record construction -/

/-- Claim C9: in the enriched record `\x7b'type': ..., 'context': ..., **d\x7d`
the server header `d` is merged *after* the injected fields, so a header
carrying its own `type` field overrides the injected type label, and the
injected label survives exactly when the header lacks the field. -/
theorem enriched_record_header_overrides_injected (type_ : String) (track : Track)
    (d : Dict) (hd : Dict.nodupKeys d) :
    (Dict.hasKey d "type" = true →
      Dict.get? (processHeader type_ track d).record "type" = Dict.get? d "type") ∧
    (Dict.hasKey d "type" = false →
      Dict.get? (processHeader type_ track d).record "type" = Option.some (PyVal.str type_)) := by
  have hrec : (processHeader type_ track d).record =
      pyMerge [("type", PyVal.str type_),
               ("context",
                 if type_ == "LOGICAL_COLUMN" then
                   optVal (Track.get
                     (Track.set track (Dict.getStr d "id") (Dict.getStr d "name"))
                     (Dict.getStr d "owner"))
                 else PyVal.none)] d := rfl
  rw [hrec, Dict.get_pyMerge d hd _ "type"]
  constructor
  · intro h
    have hs := (Dict.hasKey_iff_isSome d "type").mp h
    cases hv : Dict.get? d "type" with
    | none => rw [hv] at hs; simp at hs
    | some v => rfl
  · intro h
    have hnone : Dict.get? d "type" = Option.none := by
      cases hv : Dict.get? d "type" with
      | none => rfl
      | some v =>
        exfalso
        have htrue := (Dict.hasKey_iff_isSome d "type").mpr (by rw [hv]; rfl)
        rw [h] at htrue
        simp at htrue
    rw [hnone]
    rfl

/-- Witness for C9: a logical-table header with its own subtype field keeps
it, a header without one receives the injected type label. -/
theorem enriched_record_header_overrides_injected_witness :
    Dict.get? (processHeader "LOGICAL_TABLE" []
        [("type", PyVal.str "WORKSHEET"), ("id", PyVal.str "x")]).record "type" =
      Option.some (PyVal.str "WORKSHEET") ∧
    Dict.get? (processHeader "LOGICAL_TABLE" [] [("id", PyVal.str "y")]).record "type" =
      Option.some (PyVal.str "LOGICAL_TABLE") := by
  constructor
  · have h := enriched_record_header_overrides_injected "LOGICAL_TABLE" []
      [("type", PyVal.str "WORKSHEET"), ("id", PyVal.str "x")] (by decide)
    rw [h.1 (by decide)]
    decide
  · have h := enriched_record_header_overrides_injected "LOGICAL_TABLE" []
      [("id", PyVal.str "y")] (by decide)
    exact h.2 (by decide)

/-! ### Claims on the chunked fetch operations -/

/-- Claim C1, evaluation at the failing input: with two guids and chunk size
one, `columns` issues two requests (one per chunk) but each request carries
the *whole* guid list — the source passes `id=guids`, not `id=chunk` — so
the two identical responses are concatenated and every column is duplicated.
`permissions` and `dependents`, by contrast, send each chunk's own ids. -/
theorem columns_requests_carry_full_guid_list :
    (columnsFetch (fun ids => ids.map (fun g => [("id", PyVal.str g)])) ["g1", "g2"] 1).requests =
      [["g1", "g2"], ["g1", "g2"]] ∧
    (columnsFetch (fun ids => ids.map (fun g => [("id", PyVal.str g)])) ["g1", "g2"] 1).results =
      [[("id", PyVal.str "g1")], [("id", PyVal.str "g2")],
       [("id", PyVal.str "g1")], [("id", PyVal.str "g2")]] ∧
    chunks ["g1", "g2"] 1 = [["g1"], ["g2"]] ∧
    (permissionsFetch (fun _ => []) [] ["g1", "g2"] "EFFECTIVE" 1).requests =
      [["g1"], ["g2"]] ∧
    (dependentsFetch (fun _ => []) ["g1", "g2"] 1).requests = [["g1"], ["g2"]] := by
  decide

/-- Claim C3, evaluation at the failing input: in `get_edoc_object_list` the
page loop advances its offset by `len(r.json())` — the number of top-level
keys of the response object (2 here) — so after a first page of three
headers the second request is issued at offset 2, not 3.  The page loop of
`all` (`runType`), on the same page sequence, correctly advances by the raw
header count and requests at offsets 0 and 3. -/
theorem edoc_offset_advances_by_response_keys :
    (getEdocObjectList ["a"] (fun ty =>
        if ty == "LOGICAL_TABLE" then
          [⟨[[("id", PyVal.str "a")], [("id", PyVal.str "b")], [("id", PyVal.str "c")]],
            false, 0⟩,
           ⟨[], true, 0⟩]
        else [⟨[], true, 0⟩])).2 =
      [("QUESTION_ANSWER_BOOK", 0), ("PINBOARD_ANSWER_BOOK", 0),
       ("LOGICAL_TABLE", 0), ("LOGICAL_TABLE", 2)] ∧
    ([[("id", PyVal.str "a")], [("id", PyVal.str "b")], [("id", PyVal.str "c")]] : List Dict).length = 3 ∧
    (runType false "LOGICAL_TABLE" [] 0
        [⟨[[("id", PyVal.str "a")], [("id", PyVal.str "b")], [("id", PyVal.str "c")]],
          false, 0⟩,
         ⟨[], true, 0⟩]).offsets = [0, 3] ∧
    (2 : Nat) ≠ 3 := by
  decide

/-! ### Claim on the search data-source resolution -/

/-- Claim C10: when the name is not a valid GUID and the server's pattern
listing returns a non-empty headers list in which no name casefold-equals
the given name, the resolution reaches `data[0]` on the empty filtered list
and raises `IndexError` — not `ContentDoesNotExist` (only raised for an
empty unfiltered listing) nor `AmbiguousContentError` (only for two or more
matches). -/
theorem searchResolve_no_match_index_error (guid : String) (headers : List Dict)
    (hvalid : isValidGuid guid = false) (hne : headers ≠ [])
    (hnomatch : ∀ h ∈ headers, casefoldEq (Dict.getStr h "name") guid = false) :
    searchResolveDataSource guid headers = Except.error SearchErr.indexError := by
  unfold searchResolveDataSource
  rw [hvalid]
  simp only [Bool.false_eq_true, if_false]
  have h1 : headers.isEmpty = false := by
    cases headers with
    | nil => exact absurd rfl hne
    | cons a as => rfl
  have h2 : headers.filter (fun h => casefoldEq (Dict.getStr h "name") guid) = [] :=
    List.filter_eq_nil_iff.mpr (by intro a ha; rw [hnomatch a ha]; simp)
  simp [resolveGuid, h1, h2]

/-- Witness for C10: the name `revenue` is not a GUID and matches no header
name, so resolution ends in `IndexError`. -/
theorem searchResolve_no_match_index_error_witness :
    searchResolveDataSource "revenue"
        [[("name", PyVal.str "Sales"), ("id", PyVal.str "g1")]] =
      Except.error SearchErr.indexError :=
  searchResolve_no_match_index_error "revenue"
    [[("name", PyVal.str "Sales"), ("id", PyVal.str "g1")]]
    (by decide) (by decide) (by decide)

/-! ### Claim C4: the empty-aggregation error -/

/-- Claim C4: when the aggregated collection is empty after filtering,
`all` raises `ContentDoesNotExist` with a reason string containing the
category, the inclusion/exclusion wording, and — when tags were supplied —
the joined tag list; when the collection is non-empty it is returned and no
error is raised. -/
theorem fetchAll_empty_raises_content_not_found (ic : Bool)
    (tags : Option (List String)) (category : MetadataCategory) (excl : Bool)
    (pagesFor : String → List ListPage) :
    ((runAll excl ic pagesFor).content = [] →
      fetchAll ic tags category excl pagesFor =
        Except.error (FetchErr.contentDoesNotExist (buildReason category excl tags)) ∧
      (∃ pre post, buildReason category excl tags = pre ++ category.value ++ post) ∧
      (∃ pre post, buildReason category excl tags =
        pre ++ (if excl then "excluding " else "including ") ++ post) ∧
      (∀ ts, tags = Option.some ts → ∃ pre,
        buildReason category excl tags = pre ++ String.intercalate ", " ts)) ∧
    ((runAll excl ic pagesFor).content ≠ [] →
      fetchAll ic tags category excl pagesFor =
        Except.ok (runAll excl ic pagesFor).content) := by
  have hfe : fetchAll ic tags category excl pagesFor =
      (if (runAll excl ic pagesFor).content.isEmpty then
        Except.error (FetchErr.contentDoesNotExist (buildReason category excl tags))
      else Except.ok (runAll excl ic pagesFor).content) := rfl
  constructor
  · intro h
    refine ⟨?_, ?_, ?_, ?_⟩
    · rw [hfe, h]
      rfl
    · refine ⟨"\x27", "\x27 category (" ++
        (if excl then "excluding " else "including ") ++
        "admin-generated content)" ++ tagSuffix tags, ?_⟩
      unfold buildReason
      simp [String.append_assoc]
    · refine ⟨"\x27" ++ category.value ++ "\x27 category (",
        "admin-generated content)" ++ tagSuffix tags, ?_⟩
      unfold buildReason
      simp [String.append_assoc]
    · intro ts hts
      refine ⟨"\x27" ++ category.value ++ "\x27 category (" ++
        (if excl then "excluding " else "including ") ++
        "admin-generated content)" ++ " and tags: ", ?_⟩
      rw [hts]
      unfold buildReason tagSuffix
      exact (String.append_assoc _ " and tags: " (String.intercalate ", " ts)).symm
  · intro h
    rw [hfe]
    have : (runAll excl ic pagesFor).content.isEmpty = false := by
      cases hc : (runAll excl ic pagesFor).content with
      | nil => exact absurd hc h
      | cons a as => rfl
    rw [this]
    rfl

/-- Witness for C4: an all-empty server yields the error with the fully
assembled reason string; a run with one surviving record returns it. -/
theorem fetchAll_empty_raises_content_not_found_witness :
    fetchAll true (Option.some ["finance", "sales"]) MetadataCategory.yours true
        (fun _ => [⟨[], true, 0⟩]) =
      Except.error (FetchErr.contentDoesNotExist
        "\x27yours\x27 category (excluding admin-generated content) and tags: finance, sales") ∧
    fetchAll false Option.none MetadataCategory.all false
        (fun _ => [⟨[[("id", PyVal.str "a"), ("name", PyVal.str "A"),
                      ("authorName", PyVal.str "alice")]], true, 0⟩]) =
      Except.ok (runAll false false
        (fun _ => [⟨[[("id", PyVal.str "a"), ("name", PyVal.str "A"),
                      ("authorName", PyVal.str "alice")]], true, 0⟩])).content := by
  constructor
  · have h := (fetchAll_empty_raises_content_not_found true
      (Option.some ["finance", "sales"]) MetadataCategory.yours true
      (fun _ => [⟨[], true, 0⟩])).1 (by decide)
    rw [h.1]
    rfl
  · exact (fetchAll_empty_raises_content_not_found false Option.none
      MetadataCategory.all false _).2 (by decide)

/-! ### Claim C5: the system-content exclusion filter -/

/-- The page loop with exclusion enabled produces exactly the filtered
records of the loop with exclusion disabled, with identical track, trace and
request offsets. -/
theorem runType_exclusion (ty : String) (track : Track) (off : Nat)
    (pages : List ListPage) :
    (runType true ty track off pages).track = (runType false ty track off pages).track ∧
    (runType true ty track off pages).records =
      ((runType false ty track off pages).records).filter keepRecord ∧
    (runType true ty track off pages).trace = (runType false ty track off pages).trace ∧
    (runType true ty track off pages).offsets = (runType false ty track off pages).offsets := by
  induction pages generalizing track off with
  | nil => exact ⟨rfl, rfl, rfl, rfl⟩
  | cons page rest ih =>
    simp only [runType]
    cases hb : page.isLastBatch with
    | true => simp
    | false =>
      obtain ⟨ht, hr, htr, ho⟩ :=
        ih (processHeaders ty track page.headers).track
          (off + (processHeaders ty track page.headers).records.length)
      simp [ht, hr, htr, ho, List.filter_append]

/-- Exclusion propagated through the outer type loop: from states related by
the filter, the folds stay related by the filter. -/
theorem runSteps_exclusion (pagesFor : String → List ListPage) (tys : List String)
    (stT stF : RunState) (h1 : stT.track = stF.track)
    (h2 : stT.content = stF.content.filter keepRecord)
    (h3 : stT.trace = stF.trace) (h4 : stT.offsets = stF.offsets) :
    (tys.foldl (runStep true pagesFor) stT).track =
      (tys.foldl (runStep false pagesFor) stF).track ∧
    (tys.foldl (runStep true pagesFor) stT).content =
      ((tys.foldl (runStep false pagesFor) stF).content).filter keepRecord ∧
    (tys.foldl (runStep true pagesFor) stT).trace =
      (tys.foldl (runStep false pagesFor) stF).trace ∧
    (tys.foldl (runStep true pagesFor) stT).offsets =
      (tys.foldl (runStep false pagesFor) stF).offsets := by
  induction tys generalizing stT stF with
  | nil => exact ⟨h1, h2, h3, h4⟩
  | cons ty rest ih =>
    simp only [List.foldl_cons]
    apply ih
    · show (runType true ty stT.track 0 (pagesFor ty)).track =
        (runType false ty stF.track 0 (pagesFor ty)).track
      rw [h1]
      exact (runType_exclusion ty stF.track 0 (pagesFor ty)).1
    · show stT.content ++ (runType true ty stT.track 0 (pagesFor ty)).records =
        (stF.content ++ (runType false ty stF.track 0 (pagesFor ty)).records).filter keepRecord
      rw [List.filter_append, h2, h1,
        (runType_exclusion ty stF.track 0 (pagesFor ty)).2.1]
    · show stT.trace ++ (runType true ty stT.track 0 (pagesFor ty)).trace =
        stF.trace ++ (runType false ty stF.track 0 (pagesFor ty)).trace
      rw [h3, h1, (runType_exclusion ty stF.track 0 (pagesFor ty)).2.2.1]
    · show stT.offsets ++ ((runType true ty stT.track 0 (pagesFor ty)).offsets).map
          (fun o => (ty, o)) =
        stF.offsets ++ ((runType false ty stF.track 0 (pagesFor ty)).offsets).map
          (fun o => (ty, o))
      rw [h4, h1, (runType_exclusion ty stF.track 0 (pagesFor ty)).2.2.2]

/-- Claim C5: with the exclusion enabled, the aggregated content is exactly
the content of the identical run without exclusion, minus the records whose
`authorName` is `system` or `tsadmin`; the kept-record predicate holds
exactly on the non-system authors, and with exclusion disabled every fetched
record is kept. -/
theorem runAll_exclusion_filter (ic : Bool) (pagesFor : String → List ListPage) :
    (runAll true ic pagesFor).content =
      ((runAll false ic pagesFor).content).filter keepRecord ∧
    (∀ a : Dict, keepRecord a = false ↔
      (Dict.getStr a "authorName" = "system" ∨ Dict.getStr a "authorName" = "tsadmin")) := by
  constructor
  · exact (runSteps_exclusion pagesFor (typesList ic)
      { track := [], content := [], trace := [], offsets := [] }
      { track := [], content := [], trace := [], offsets := [] }
      rfl rfl rfl rfl).2.1
  · intro a
    simp only [keepRecord, Bool.not_eq_false', Bool.or_eq_true, beq_iff_eq]

/-! ### Claim C6: the forward-accumulating context lookup -/

theorem Track.get_set (t : Track) (k v p : String) :
    Track.get (Track.set t k v) p =
      if k = p then Option.some v else Track.get t p := by
  by_cases h : k = p
  · simp [Track.get, Track.set, List.find?, h]
  · have hb : (k == p) = false := by simp [h]
    simp [Track.get, Track.set, List.find?, hb, h]

theorem optVal_ne_none_iff (o : Option String) :
    optVal o ≠ PyVal.none ↔ o ≠ Option.none := by
  cases o <;> simp [optVal]

theorem trackAfter_append (t : Track) (es1 es2 : List TraceEntry) :
    trackAfter t (es1 ++ es2) = trackAfter (trackAfter t es1) es2 := by
  induction es1 generalizing t with
  | nil => rfl
  | cons e rest ih => exact ih (Track.set t (entryId e) (entryName e))

theorem CtxOk_append (t : Track) (es1 es2 : List TraceEntry)
    (h1 : CtxOk t es1) (h2 : CtxOk (trackAfter t es1) es2) :
    CtxOk t (es1 ++ es2) := by
  induction es1 generalizing t with
  | nil => exact h2
  | cons e rest ih => exact ⟨h1.1, ih (Track.set t (entryId e) (entryName e)) h1.2 h2⟩

theorem processHeaders_spec (ty : String) (t : Track) (hs : List Dict) :
    (processHeaders ty t hs).track = trackAfter t (processHeaders ty t hs).trace ∧
    CtxOk t (processHeaders ty t hs).trace := by
  induction hs generalizing t with
  | nil => exact ⟨rfl, trivial⟩
  | cons d rest ih =>
    exact ⟨(ih (processHeader ty t d).track).1, rfl,
      (ih (processHeader ty t d).track).2⟩

theorem runType_spec (excl : Bool) (ty : String) (t : Track) (off : Nat)
    (pages : List ListPage) :
    (runType excl ty t off pages).track =
      trackAfter t (runType excl ty t off pages).trace ∧
    CtxOk t (runType excl ty t off pages).trace := by
  induction pages generalizing t off with
  | nil => exact ⟨rfl, trivial⟩
  | cons page rest ih =>
    simp only [runType]
    cases hb : page.isLastBatch with
    | true => simpa using processHeaders_spec ty t page.headers
    | false =>
      constructor
      · show (runType excl ty (processHeaders ty t page.headers).track
            (off + (processHeaders ty t page.headers).records.length) rest).track =
          trackAfter t ((processHeaders ty t page.headers).trace ++
            (runType excl ty (processHeaders ty t page.headers).track
              (off + (processHeaders ty t page.headers).records.length) rest).trace)
        rw [trackAfter_append, ← (processHeaders_spec ty t page.headers).1]
        exact (ih (processHeaders ty t page.headers).track
          (off + (processHeaders ty t page.headers).records.length)).1
      · show CtxOk t ((processHeaders ty t page.headers).trace ++
            (runType excl ty (processHeaders ty t page.headers).track
              (off + (processHeaders ty t page.headers).records.length) rest).trace)
        refine CtxOk_append t _ _ (processHeaders_spec ty t page.headers).2 ?_
        rw [← (processHeaders_spec ty t page.headers).1]
        exact (ih (processHeaders ty t page.headers).track
          (off + (processHeaders ty t page.headers).records.length)).2

theorem runSteps_spec (excl : Bool) (pagesFor : String → List ListPage)
    (tys : List String) (st : RunState)
    (h1 : st.track = trackAfter [] st.trace) (h2 : CtxOk [] st.trace) :
    (tys.foldl (runStep excl pagesFor) st).track =
      trackAfter [] (tys.foldl (runStep excl pagesFor) st).trace ∧
    CtxOk [] (tys.foldl (runStep excl pagesFor) st).trace := by
  induction tys generalizing st with
  | nil => exact ⟨h1, h2⟩
  | cons ty rest ih =>
    simp only [List.foldl_cons]
    apply ih
    · show (runType excl ty st.track 0 (pagesFor ty)).track =
        trackAfter [] (st.trace ++ (runType excl ty st.track 0 (pagesFor ty)).trace)
      rw [trackAfter_append, ← h1]
      exact (runType_spec excl ty st.track 0 (pagesFor ty)).1
    · show CtxOk [] (st.trace ++ (runType excl ty st.track 0 (pagesFor ty)).trace)
      refine CtxOk_append [] _ _ h2 ?_
      rw [← h1]
      exact (runType_spec excl ty st.track 0 (pagesFor ty)).2

theorem CtxOk_get (t : Track) (es : List TraceEntry) (h : CtxOk t es)
    (i : Nat) (hi : i < es.length) :
    (es.get ⟨i, hi⟩).ctx =
      (if (es.get ⟨i, hi⟩).type_ == "LOGICAL_COLUMN" then
        optVal (Track.get (trackAfter t (es.take (i+1)))
          (entryOwner (es.get ⟨i, hi⟩)))
      else PyVal.none) := by
  induction es generalizing t i with
  | nil => exact absurd hi (by simp)
  | cons e rest ih =>
    cases i with
    | zero => exact h.1
    | succ n =>
      exact ih (Track.set t (entryId e) (entryName e)) h.2 n
        (Nat.lt_of_succ_lt_succ hi)

theorem Track.get_trackAfter_ne_none (t : Track) (es : List TraceEntry) (p : String) :
    Track.get (trackAfter t es) p ≠ Option.none ↔
      ((∃ e ∈ es, entryId e = p) ∨ Track.get t p ≠ Option.none) := by
  induction es generalizing t with
  | nil => simp [trackAfter]
  | cons e rest ih =>
    show Track.get (trackAfter (Track.set t (entryId e) (entryName e)) rest) p ≠
        Option.none ↔ _
    rw [ih]
    constructor
    · rintro (⟨x, hx, hxp⟩ | hrest)
      · exact Or.inl ⟨x, List.mem_cons_of_mem e hx, hxp⟩
      · rw [Track.get_set] at hrest
        by_cases h : entryId e = p
        · exact Or.inl ⟨e, List.mem_cons_self e rest, h⟩
        · rw [if_neg h] at hrest
          exact Or.inr hrest
    · rintro (⟨x, hx, hxp⟩ | htp)
      · rcases List.mem_cons.mp hx with rfl | hx2
        · refine Or.inr ?_
          rw [Track.get_set, if_pos hxp]
          simp
        · exact Or.inl ⟨x, hx2, hxp⟩
      · refine Or.inr ?_
        rw [Track.get_set]
        by_cases h : entryId e = p
        · simp [h]
        · rw [if_neg h]
          exact htp

/-- Claim C6, counterexample: in a run whose only record is a logical column
whose `owner` is its own id, the context lookup succeeds (the record's own
id is registered into `track_guids` *before* its context lookup) even though
no record was processed strictly earlier — refuting "succeeds only if that
parent id appeared in a record processed earlier". -/
theorem runAll_context_self_reference :
    ((runAll true true (fun ty =>
        if ty == "LOGICAL_COLUMN" then
          [⟨[[("id", PyVal.str "X"), ("name", PyVal.str "colX"),
              ("owner", PyVal.str "X"), ("authorName", PyVal.str "alice")]],
            true, 0⟩]
        else [⟨[], true, 0⟩])).trace.map TraceEntry.ctx) = [PyVal.str "colX"] ∧
    ((runAll true true (fun ty =>
        if ty == "LOGICAL_COLUMN" then
          [⟨[[("id", PyVal.str "X"), ("name", PyVal.str "colX"),
              ("owner", PyVal.str "X"), ("authorName", PyVal.str "alice")]],
            true, 0⟩]
        else [⟨[], true, 0⟩])).trace.map entryOwner) = ["X"] ∧
    ((runAll true true (fun ty =>
        if ty == "LOGICAL_COLUMN" then
          [⟨[[("id", PyVal.str "X"), ("name", PyVal.str "colX"),
              ("owner", PyVal.str "X"), ("authorName", PyVal.str "alice")]],
            true, 0⟩]
        else [⟨[], true, 0⟩])).trace.map entryId) = ["X"] ∧
    PyVal.str "colX" ≠ PyVal.none := by
  decide

/-- Claim C6, amended: for every record enriched during an aggregation run
(any page of any type, the table persisting across types), the context
lookup by the record's declared owner succeeds exactly when that owner id
appeared in a record processed earlier in the same run *or is the record's
own id* (each record registers its id before its own lookup); in particular
a forward reference to an id not yet seen yields `PyVal.none` — the lookup
is total and never an error. -/
theorem runAll_context_lookup (excl ic : Bool) (pagesFor : String → List ListPage)
    (i : Nat) (hi : i < (runAll excl ic pagesFor).trace.length)
    (hty : ((runAll excl ic pagesFor).trace.get ⟨i, hi⟩).type_ = "LOGICAL_COLUMN") :
    ((runAll excl ic pagesFor).trace.get ⟨i, hi⟩).ctx ≠ PyVal.none ↔
      ∃ j, ∃ hj : j < (runAll excl ic pagesFor).trace.length, j ≤ i ∧
        entryId ((runAll excl ic pagesFor).trace.get ⟨j, hj⟩) =
          entryOwner ((runAll excl ic pagesFor).trace.get ⟨i, hi⟩) := by
  have hspec := runSteps_spec excl pagesFor (typesList ic)
    { track := [], content := [], trace := [], offsets := [] } rfl trivial
  have hg := CtxOk_get [] (runAll excl ic pagesFor).trace hspec.2 i hi
  rw [hty] at hg
  simp only [beq_self_eq_true, if_true] at hg
  rw [hg, optVal_ne_none_iff, Track.get_trackAfter_ne_none]
  have hget0 : Track.get []
      (entryOwner ((runAll excl ic pagesFor).trace.get ⟨i, hi⟩)) = Option.none := rfl
  rw [hget0]
  simp only [ne_eq, not_true_eq_false, or_false]
  constructor
  · rintro ⟨e, he, hep⟩
    rw [List.mem_take_iff_getElem] at he
    obtain ⟨j, hj, hje⟩ := he
    have hjlen : j < (runAll excl ic pagesFor).trace.length := (lt_min_iff.mp hj).2
    refine ⟨j, hjlen, Nat.lt_succ_iff.mp (lt_min_iff.mp hj).1, ?_⟩
    have hge : (runAll excl ic pagesFor).trace.get ⟨j, hjlen⟩ = e := by
      rw [List.get_eq_getElem]
      exact hje
    rw [hge, hep]
  · rintro ⟨j, hj, hji, hje⟩
    refine ⟨(runAll excl ic pagesFor).trace.get ⟨j, hj⟩, ?_, hje⟩
    rw [List.mem_take_iff_getElem]
    refine ⟨j, lt_min_iff.mpr ⟨Nat.lt_succ_of_le hji, hj⟩, ?_⟩
    rw [List.get_eq_getElem]

/-- Witness for the amended C6 theorem: a column whose owner is a logical
table fetched earlier in the same run resolves a non-empty context. -/
theorem runAll_context_lookup_witness :
    ((runAll false true (fun ty =>
        if ty == "LOGICAL_TABLE" then
          [⟨[[("id", PyVal.str "T1"), ("name", PyVal.str "Table One"),
              ("authorName", PyVal.str "alice")]], true, 0⟩]
        else if ty == "LOGICAL_COLUMN" then
          [⟨[[("id", PyVal.str "C1"), ("name", PyVal.str "col1"),
              ("owner", PyVal.str "T1"), ("authorName", PyVal.str "alice")]],
            true, 0⟩]
        else [⟨[], true, 0⟩])).trace.get ⟨1, by decide⟩).ctx ≠ PyVal.none :=
  (runAll_context_lookup false true (fun ty =>
      if ty == "LOGICAL_TABLE" then
        [⟨[[("id", PyVal.str "T1"), ("name", PyVal.str "Table One"),
            ("authorName", PyVal.str "alice")]], true, 0⟩]
      else if ty == "LOGICAL_COLUMN" then
        [⟨[[("id", PyVal.str "C1"), ("name", PyVal.str "col1"),
            ("owner", PyVal.str "T1"), ("authorName", PyVal.str "alice")]],
          true, 0⟩]
      else [⟨[], true, 0⟩]) 1 (by decide) (by decide)).mpr
    ⟨0, by decide, by decide, by decide⟩

end CsTools
